import Mathlib

/-!
mavshell (`msh.c`): history store, process registry, tokenizer and dispatch loop

A shallow embedding of `src/msh.c`.

* A C string is the list of its characters before the terminating NUL.
* The arrays `history` (15 buffers) and `pids` (15 `pid_t`) are lists of 15 slots;
  `a[i] = v` is `List.set`, `a[i]` is `List.getD`.
* The `int` counters `count` and `pid_count` are natural numbers: they start at 0 and are
  only ever incremented (signed overflow after 2^31 records is outside the model).
* What the operating system answers in one pass of the loop (the line read, `getenv`,
  `chdir`, `fork`, `execvp`) is an explicit `Env` argument.
-/

namespace Msh

/-- A C string: the characters before the terminating NUL. -/
abbrev Line := List Char

/-- The macro `MAX_COMMAND_SIZE`: the maximum command-line size. -/
def MAX_COMMAND_SIZE : Nat := 255

/-- The macro `MAX_NUM_ARGUMENTS`: 1 command and 10 parameters. -/
def MAX_NUM_ARGUMENTS : Nat := 11

/-- The macro `MAX_HISTORY`: the maximum number of history lines saved. -/
def MAX_HISTORY : Nat := 15

/-- The macro `MAX_PIDS`: the maximum number of pids saved. -/
def MAX_PIDS : Nat := 15

/-! ## History store and process registry -/

/-- The loop `for(i = 0; i < n; i++) a[i] = a[i+1];` shared by `add_history` (where the
assignment is a `strcpy`) and `add_pids`. -/
def shift_loop {α : Type} (a : List α) (n : Nat) (dflt : α) : List α :=
  (List.range n).foldl (fun h i => h.set i (h.getD (i + 1) dflt)) a

/-- The function `void add_history(char** history, char* new, int count)`. -/
def add_history (history : List Line) (new : Line) (count : Nat) : List Line :=
  if count < MAX_HISTORY then
    history.set count new
  else
    (shift_loop history (MAX_HISTORY - 1) []).set (MAX_HISTORY - 1) new

/-- The text written by `printf("%d: %s", n, s)`. -/
def fmt_history (n : Nat) (s : Line) : Line :=
  (Nat.repr n).toList ++ [':', ' '] ++ s

/-- The function `void print_history(char** history, int count)`: the list of the texts written, one per
call to `printf`. -/
def print_history (history : List Line) (count : Nat) : List Line :=
  let lower_num := if count > MAX_HISTORY then MAX_HISTORY else count
  (List.range lower_num).map (fun i => fmt_history (i + 1) (history.getD i []))

/-- The function `void add_pids(pid_t new_pid, pid_t *pids, int pid_count)`. -/
def add_pids (new_pid : Int) (pids : List Int) (pid_count : Nat) : List Int :=
  if pid_count < MAX_PIDS then
    pids.set pid_count new_pid
  else
    (shift_loop pids (MAX_PIDS - 1) 0).set (MAX_PIDS - 1) new_pid

/-- The text written by `printf("%d: %d\n", n, pid)`. -/
def fmt_pid (n : Nat) (pid : Int) : Line :=
  (Nat.repr n).toList ++ [':', ' '] ++ (toString pid).toList ++ ['\n']

/-- The function `void print_pids(pid_t *pids, int pid_count)`: the list of the texts written, one per
call to `printf`. -/
def print_pids (pids : List Int) (pid_count : Nat) : List Line :=
  let lower_num := if pid_count > MAX_PIDS then MAX_PIDS else pid_count
  (List.range lower_num).map (fun i => fmt_pid (i + 1) (pids.getD i 0))

/-- Recording lines one after another, as every recording branch of `main` does:
`add_history(history, cmd_str, count); count++;`. -/
def record_lines (history : List Line) (count : Nat) : List Line → List Line × Nat
  | [] => (history, count)
  | l :: ls => record_lines (add_history history l count) (count + 1) ls

/-- Recording process identifiers one after another, as the parent branch of `main` does:
`add_pids(pid, pids, pid_count); pid_count++;`. -/
def record_pids (pids : List Int) (pid_count : Nat) : List Int → List Int × Nat
  | [] => (pids, pid_count)
  | p :: ps => record_pids (add_pids p pids pid_count) (pid_count + 1) ps

/-- The insertion shared by `add_history` and `add_pids`, with the capacity 15 written out;
used to state the lemmas on both stores once. -/
def ring_add {α : Type} (a : List α) (x : α) (c : Nat) (dflt : α) : List α :=
  if c < 15 then a.set c x else (shift_loop a 14 dflt).set 14 x

/-! ## Tokenizer -/

/-- The macro `WHITESPACE`: the delimiters space, tab and newline. -/
def WHITESPACE : List Char := [' ', '\t', '\n']

/-- The scan of `strsep(&s, WHITESPACE)` over a non-NULL string `s`: the token returned
(the characters before the first delimiter, which is overwritten with NUL) and the new
value of `s` (the rest after that delimiter, or NULL when no delimiter was found). -/
def strsep_scan : Line → Line × Option Line
  | [] => ([], none)
  | c :: cs =>
    if WHITESPACE.contains c then ([], some cs)
    else (c :: (strsep_scan cs).1, (strsep_scan cs).2)

/-- The call `strsep(&stringp, WHITESPACE)`: the pointer returned and the new value of `stringp`. -/
def strsep (stringp : Option Line) : Option Line × Option Line :=
  match stringp with
  | none => (none, none)
  | some s => (some (strsep_scan s).1, (strsep_scan s).2)

/-- One slot of `char *token[MAX_NUM_ARGUMENTS + 1]`, an automatic array declared without
an initialiser: a slot holds an indeterminate value until it is assigned. -/
inductive Slot where
  | unwritten
  | null
  | str (s : Line)
  deriving DecidableEq, Repr

/-- The variables of the tokenizer loop, and the texts it printed. -/
structure Tok where
  token : List Slot
  token_count : Nat
  working_str : Option Line
  max_exceed : Bool
  out : List Line
  deriving DecidableEq, Repr

/-- The text of `printf("Command exceeded maximum argument length.\n")`. -/
def msg_exceeded : Line := "Command exceeded maximum argument length.\n".toList

/-- The value left in `token[token_count]` by
`token[token_count] = strndup(argument_ptr, MAX_COMMAND_SIZE);
 if (strlen(token[token_count]) == 0) token[token_count] = NULL;`. -/
def slot_of (argument_ptr : Line) : Slot :=
  if (argument_ptr.take MAX_COMMAND_SIZE).length = 0 then Slot.null
  else Slot.str (argument_ptr.take MAX_COMMAND_SIZE)

/-- The loop
`while (((argument_ptr = strsep(&working_str, WHITESPACE)) != NULL) &&
        (token_count < MAX_NUM_ARGUMENTS + 1)) { ... token_count++; }`.
The first argument bounds the number of evaluations of the loop condition; the loop
evaluates it at most `MAX_NUM_ARGUMENTS + 2` times (`tokenize_loop_fuel`). -/
def tokenize_loop : Nat → Tok → Tok
  | 0, st => st
  | fuel + 1, st =>
    match strsep st.working_str with
    | (none, w) => { st with working_str := w }
    | (some argument_ptr, w) =>
      if st.token_count < MAX_NUM_ARGUMENTS + 1 then
        let token := st.token.set st.token_count (slot_of argument_ptr)
        if st.token_count = MAX_NUM_ARGUMENTS then
          -- the second `strsep` is evaluated only here (`&&` short-circuits)
          match strsep w with
          | (some _, w2) =>
            tokenize_loop fuel
              { token := token, token_count := st.token_count + 1, working_str := w2,
                max_exceed := true, out := st.out ++ [msg_exceeded] }
          | (none, w2) =>
            tokenize_loop fuel
              { token := token, token_count := st.token_count + 1, working_str := w2,
                max_exceed := st.max_exceed, out := st.out }
        else
          tokenize_loop fuel
            { token := token, token_count := st.token_count + 1, working_str := w,
              max_exceed := st.max_exceed, out := st.out }
      else { st with working_str := w }

/-- The tokenizer of `main` (from `char *token[...]` to the end of the `while`), run on
`cmd_str` with the current value of `max_exceed`. -/
def tokenize (cmd_str : Line) (max_exceed : Bool) : Tok :=
  tokenize_loop (MAX_NUM_ARGUMENTS + 2)
    { token := List.replicate (MAX_NUM_ARGUMENTS + 1) Slot.unwritten, token_count := 0,
      working_str := some cmd_str, max_exceed := max_exceed, out := [] }

/-- All the fields of a line: the line cut at every single delimiter character (what
successive `strsep` calls return until NULL). -/
def fields : Line → List Line
  | [] => [[]]
  | c :: cs =>
    if WHITESPACE.contains c then [] :: fields cs
    else match fields cs with
      | f :: fs => (c :: f) :: fs
      | [] => [[c]]

/-- The fields still to be returned by `strsep` for a given value of `working_str`. -/
def rest_fields : Option Line → List Line
  | none => []
  | some w => fields w

/-- The whitespace-separated words of a line, following the spec's words: the maximal
runs of characters other than space, tab and newline. -/
def words : Line → List Line
  | [] => []
  | c :: cs =>
    if WHITESPACE.contains c then words cs
    else match cs with
      | [] => [[c]]
      | d :: _ =>
        if WHITESPACE.contains d then [c] :: words cs
        else match words cs with
          | w :: ws => (c :: w) :: ws
          | [] => [[c]]

/-! ## The loop of `main` -/

/-- The variables of `main` that live across iterations of `while(1)`. -/
structure Shell where
  repeat_ : Bool
  max_exceed : Bool
  cmd_str : Line
  count : Nat
  pid_count : Nat
  history : List Line
  pids : List Int
  deriving DecidableEq, Repr

/-- What the operating system answers during one pass of the loop. -/
structure Env where
  /-- the string stored in `cmd_str` by the `fgets` call that succeeds -/
  input : Line
  /-- the value of `getenv("HOME")`, `none` for NULL -/
  home : Option Line
  /-- the value returned by `chdir` -/
  chdir_ret : Int
  /-- the value returned by `fork` -/
  fork_ret : Int
  /-- whether `execvp` returns (with -1) instead of replacing the process image -/
  execvp_fails : Bool
  deriving DecidableEq, Repr

/-- The visible actions of one pass, in program order. -/
inductive Event where
  | print (text : Line)
  | perror (text : Line)
  | chdir (path : Option Line)
  | fork
  | execvp (file : Line) (argv : Option (List Line))
  | waitpid (pid : Int)
  | fflush
  deriving DecidableEq, Repr

/-- How one pass of the loop ends for the process that runs it. -/
inductive Outcome where
  /-- the end of the loop body is reached; the loop goes on in this state -/
  | next (s : Shell)
  /-- the call `exit(status)` was made -/
  | exit (status : Nat)
  /-- the call to `execvp` replaced the process image -/
  | exec (file : Line) (argv : List Line)
  /-- an indeterminate slot or an element outside an array was read -/
  | undefined
  deriving DecidableEq, Repr

/-- The status `EXIT_SUCCESS`. -/
def EXIT_SUCCESS : Nat := 0

/-- The status `EXIT_FAILURE`. -/
def EXIT_FAILURE : Nat := 1

/-- The text of `printf("msh> ")`. -/
def msg_prompt : Line := "msh> ".toList

/-- The text of `printf("Command not in history.\n")`. -/
def msg_not_in_history : Line := "Command not in history.\n".toList

/-- The text of `printf("%s: Command not found.\n", temp)`. -/
def msg_not_found (temp : Line) : Line := temp ++ ": Command not found.\n".toList

/-- The state of `main` when the loop is entered; the contents of the buffers obtained
from `malloc` are arbitrary. -/
def startup (cmd0 : Line) (history0 : List Line) (pids0 : List Int) : Shell :=
  { repeat_ := false, max_exceed := false, cmd_str := cmd0, count := 0, pid_count := 0,
    history := history0, pids := pids0 }

/-- The line in `cmd_str` when the tokenizer starts: the recalled line when `repeat` is
set, else the line read by `fgets`. -/
def current_line (env : Env) (s : Shell) : Line :=
  if s.repeat_ then s.cmd_str else env.input

/-- The value of `token[i]` as an rvalue. -/
def read_token (token : List Slot) (i : Nat) : Slot :=
  token.getD i Slot.unwritten

/-- The value of `s[i]` for a C string `s` and `i <= strlen(s)`: the terminating NUL at `strlen(s)`. -/
def char_at (s : Line) (i : Nat) : Char :=
  s.getD i (Char.ofNat 0)

/-- The value of `history[i]` as an rvalue, for an `int` index: `none` outside the 15 slots. -/
def read_history (history : List Line) (i : Int) : Option Line :=
  if 0 ≤ i ∧ i < MAX_HISTORY then history.get? i.toNat else none

/-- The vector that `execvp` reads from `&token[0]`: the strings up to the first NULL;
`none` when an unwritten slot or the end of the array comes first. -/
def argv_of : List Slot → Option (List Line)
  | [] => none
  | Slot.unwritten :: _ => none
  | Slot.null :: _ => some []
  | Slot.str a :: rest => (argv_of rest).map (fun l => a :: l)

/-- The branch of the `if ... else if ...` chain of `main` that is taken. -/
inductive Branch where
  | unwritten
  | empty
  | oversized
  | quit
  | cd
  | history
  | recall1 (rep_num : Nat)
  | recall2 (rep_num : Nat)
  | showpids
  | external (file : Line)
  deriving DecidableEq, Repr

/-- The conditions of the chain, in order. -/
def classify (token : List Slot) (max_exceed : Bool) : Branch :=
  match read_token token 0 with
  | Slot.unwritten => Branch.unwritten
  | Slot.null => Branch.empty
  | Slot.str t0 =>
    if max_exceed = true then Branch.oversized
    else if t0 = "exit".toList ∨ t0 = "quit".toList then Branch.quit
    else if t0 = "cd".toList then Branch.cd
    else if t0 = "history".toList then Branch.history
    else if char_at t0 0 = '!' ∧ t0.length = 2 ∧ (char_at t0 1).isDigit then
      Branch.recall1 ((char_at t0 1).toNat - '0'.toNat)
    else if char_at t0 0 = '!' ∧ t0.length = 3 ∧ (char_at t0 1).isDigit
        ∧ (char_at t0 2).isDigit then
      Branch.recall2
        (((char_at t0 1).toNat - '0'.toNat) * 10 + ((char_at t0 2).toNat - '0'.toNat))
    else if t0 = "showpids".toList then Branch.showpids
    else Branch.external t0

/-- The state after `add_history(history, cmd_str, count); count++;`. -/
def record (s : Shell) : Shell :=
  { s with history := add_history s.history s.cmd_str s.count, count := s.count + 1 }

/-- The body of the branch taken, on the state in which `cmd_str` holds the current line,
`repeat` was reset and `max_exceed` is as the tokenizer left it. -/
def dispatch (env : Env) (s : Shell) (token : List Slot) (token_count : Nat) :
    List Event × Outcome :=
  match classify token s.max_exceed with
  | Branch.unwritten => ([], Outcome.undefined)
  | Branch.empty => ([], Outcome.next s)
  | Branch.oversized => ([], Outcome.next { record s with max_exceed := false })
  | Branch.quit => ([], Outcome.exit 0)
  | Branch.cd =>
    if token_count = 2 then
      ([Event.chdir env.home], Outcome.next (record s))
    else
      match read_token token 1 with
      | Slot.unwritten => ([], Outcome.undefined)
      | Slot.null =>
        (Event.chdir none :: (if env.chdir_ret = -1 then [Event.perror []] else []),
          Outcome.next (record s))
      | Slot.str path =>
        (Event.chdir (some path) :: (if env.chdir_ret = -1 then [Event.perror []] else []),
          Outcome.next (record s))
  | Branch.history =>
    ((print_history (record s).history (record s).count).map Event.print,
      Outcome.next (record s))
  | Branch.recall1 rep_num =>
    if rep_num = 0 ∨ rep_num ≥ s.count then
      ([Event.print msg_not_in_history], Outcome.next s)
    else
      match read_history s.history ((rep_num : Int) - 1) with
      | none => ([], Outcome.undefined)
      | some line => ([], Outcome.next { s with repeat_ := true, cmd_str := line })
  | Branch.recall2 rep_num =>
    if rep_num > MAX_HISTORY ∨ rep_num > s.count then
      ([Event.print msg_not_in_history], Outcome.next s)
    else
      match read_history s.history ((rep_num : Int) - 1) with
      | none => ([], Outcome.undefined)
      | some line => ([], Outcome.next { s with repeat_ := true, cmd_str := line })
  | Branch.showpids =>
    ((print_pids s.pids s.pid_count).map Event.print, Outcome.next (record s))
  | Branch.external file =>
    if env.fork_ret = -1 then
      ([Event.fork, Event.perror "Execution failed.\n".toList], Outcome.exit EXIT_FAILURE)
    else if env.fork_ret = 0 then
      if env.execvp_fails then
        ([Event.fork, Event.execvp file (argv_of token),
          Event.print (msg_not_found s.cmd_str.dropLast), Event.fflush],
          Outcome.exit EXIT_SUCCESS)
      else
        match argv_of token with
        | none => ([Event.fork], Outcome.undefined)
        | some argv => ([Event.fork, Event.execvp file (some argv)], Outcome.exec file argv)
    else
      ([Event.fork, Event.waitpid env.fork_ret, Event.fflush],
        Outcome.next
          { record s with
            pids := add_pids env.fork_ret s.pids s.pid_count,
            pid_count := s.pid_count + 1 })

/-- One pass of the body of `while(1)`: prompt and read unless a recall is pending,
tokenize, reset `repeat`, dispatch. -/
def pass (env : Env) (s : Shell) : List Event × Outcome :=
  let tk := tokenize (current_line env s) s.max_exceed
  let r := dispatch env
    { s with cmd_str := current_line env s, repeat_ := false, max_exceed := tk.max_exceed }
    tk.token tk.token_count
  ((if s.repeat_ then [] else [Event.print msg_prompt]) ++ tk.out.map Event.print ++ r.1, r.2)

/-- Successive passes, one per element of the list, for as long as the loop goes on. -/
def run : List Env → Shell → Outcome
  | [], s => Outcome.next s
  | env :: envs, s =>
    match (pass env s).2 with
    | Outcome.next s' => run envs s'
    | o => o

/-- The states the loop can be in at the head of a pass, from a startup state whose two
arrays have their 15 slots. -/
def Reachable (s : Shell) : Prop :=
  ∃ (cmd0 : Line) (history0 : List Line) (pids0 : List Int) (envs : List Env),
    history0.length = MAX_HISTORY ∧ pids0.length = MAX_PIDS ∧
    run envs (startup cmd0 history0 pids0) = Outcome.next s

/-! ## Concrete inputs -/

/-- A startup state in which every buffer obtained from `malloc` happens to hold zeros. -/
def startup0 : Shell :=
  startup [] (List.replicate MAX_HISTORY []) (List.replicate MAX_PIDS 0)

/-- An environment for one pass: `fgets` stores `line`, `HOME` is `/root`, `chdir`
succeeds, `fork` returns `pid` and `execvp` finds the program. -/
def env_line (line : String) (pid : Int) : Env :=
  { input := line.toList, home := some "/root".toList, chdir_ret := 0, fork_ret := pid,
    execvp_fails := false }

/-- The state after the three external commands `ls`, `pwd` and `date`, run as the
children 101, 102 and 103, from `startup0`. -/
def shell3 : Shell :=
  { repeat_ := false, max_exceed := false, cmd_str := "date\n".toList, count := 3,
    pid_count := 3,
    history := ["ls\n".toList, "pwd\n".toList, "date\n".toList] ++ List.replicate 12 [],
    pids := [101, 102, 103] ++ List.replicate 12 0 }

/-- A line with a command and 11 arguments. -/
def line_12_words : Line := "a b c d e f g h i j k l\n".toList

/-- The state reached from `startup0` by an oversized line that starts with a space, then
`exit`, `ls` (child 101) and `!1`: the recall of entry 1, the line `exit`, is pending. -/
def shell_recall_exit : Shell :=
  { repeat_ := true, max_exceed := false, cmd_str := "exit\n".toList, count := 2,
    pid_count := 1,
    history := ["exit\n".toList, "ls\n".toList] ++ List.replicate 13 [],
    pids := 101 :: List.replicate 14 0 }

/-- The state reached from `startup0` by an oversized line that starts with a space, then
`!1`, `ls` (child 101) and `!1`: the recall of entry 1, the line `!1`, is pending. -/
def shell_recall_loop : Shell :=
  { repeat_ := true, max_exceed := false, cmd_str := "!1\n".toList, count := 2,
    pid_count := 1,
    history := ["!1\n".toList, "ls\n".toList] ++ List.replicate 13 [],
    pids := 101 :: List.replicate 14 0 }

/-! ## Lemmas on the two stores -/

theorem shift_loop_fifteen {α : Type} (a : List α) (dflt x : α) (h : a.length = 15) :
    (shift_loop a 14 dflt).set 14 x = a.drop 1 ++ [x] := by
  match a, h with
  | [_, _, _, _, _, _, _, _, _, _, _, _, _, _, _], _ => rfl

theorem ring_add_length {α : Type} (a : List α) (x dflt : α) (c : Nat) (h : a.length = 15) :
    (ring_add a x c dflt).length = 15 := by
  unfold ring_add
  split
  · simp [h]
  · rw [shift_loop_fifteen a dflt x h]; simp [h]

theorem ring_add_window {α : Type} (a : List α) (x dflt : α) (ls : List α)
    (h : a.length = 15) (hw : a.take (min ls.length 15) = ls.drop (ls.length - 15)) :
    (ring_add a x ls.length dflt).take (min (ls.length + 1) 15)
      = (ls ++ [x]).drop (ls.length + 1 - 15) := by
  unfold ring_add
  split
  · rename_i hc
    have h1 : min ls.length 15 = ls.length := by omega
    have h2 : min (ls.length + 1) 15 = ls.length + 1 := by omega
    have h3 : ls.length - 15 = 0 := by omega
    have h4 : ls.length + 1 - 15 = 0 := by omega
    rw [h1, h3] at hw
    rw [h2, h4]
    simp only [List.drop_zero] at hw ⊢
    rw [List.take_succ, List.set_take, hw, List.set_eq_of_length_le (Nat.le_refl _)]
    simp [h, hc]
  · rename_i hc
    have h1 : min ls.length 15 = 15 := by omega
    have h2 : min (ls.length + 1) 15 = 15 := by omega
    rw [h1] at hw
    rw [h2, shift_loop_fifteen a dflt x h]
    have h5 : a = ls.drop (ls.length - 15) := by
      rw [← hw, List.take_of_length_le (by omega)]
    rw [List.take_of_length_le (by simp [h])]
    rw [h5, List.drop_drop]
    have h6 : ls.length + 1 - 15 = 1 + (ls.length - 15) := by omega
    rw [h6, List.drop_append_of_le_length (by omega), Nat.add_comm]

/-- The newest entry after an insertion is the inserted element. -/
theorem ring_add_newest {α : Type} (a : List α) (x dflt : α) (c : Nat) (h : a.length = 15) :
    (ring_add a x c dflt).getD (min c 14) dflt = x := by
  unfold ring_add
  split
  · rename_i hc
    have : min c 14 = c := by omega
    rw [this]
    simp [List.getD_eq_getElem?_getD, h, hc]
  · rename_i hc
    have : min c 14 = 14 := by omega
    rw [this, shift_loop_fifteen a dflt x h]
    simp [List.getD_eq_getElem?_getD, List.getElem?_append_right, h]
    
    

theorem print_window {α : Type} (f : Nat → α → List Char) (a : List α) (dflt : α) (m : Nat)
    (hm : m ≤ a.length) :
    (List.range m).map (fun i => f (i + 1) (a.getD i dflt))
      = List.zipWith f (List.range' 1 m) (a.take m) := by
  apply List.ext_getElem
  · simp [hm]
  · intro i h1 h2
    simp at h1
    simp [List.getD_eq_getElem?_getD, List.getElem?_eq_getElem (by omega : i < a.length)]
    rw [Nat.add_comm]

theorem record_lines_window (ls : List Line) :
    ∀ (h : List Line) (done : List Line), h.length = 15 →
      h.take (min done.length 15) = done.drop (done.length - 15) →
      (record_lines h done.length ls).2 = (done ++ ls).length ∧
      (record_lines h done.length ls).1.length = 15 ∧
      (record_lines h done.length ls).1.take (min (done ++ ls).length 15)
        = (done ++ ls).drop ((done ++ ls).length - 15) := by
  induction ls with
  | nil => intro h done hl hw; simpa [record_lines] using ⟨hl, hw⟩
  | cons l ls ih =>
    intro h done hl hw
    have hlen := ring_add_length h l [] done.length hl
    have hwin := ring_add_window h l [] done hl hw
    have := ih (add_history h l done.length) (done ++ [l]) hlen (by simpa using hwin)
    simpa [record_lines] using this

theorem record_pids_window (ps : List Int) :
    ∀ (a : List Int) (done : List Int), a.length = 15 →
      a.take (min done.length 15) = done.drop (done.length - 15) →
      (record_pids a done.length ps).2 = (done ++ ps).length ∧
      (record_pids a done.length ps).1.length = 15 ∧
      (record_pids a done.length ps).1.take (min (done ++ ps).length 15)
        = (done ++ ps).drop ((done ++ ps).length - 15) := by
  induction ps with
  | nil => intro a done hl hw; simpa [record_pids] using ⟨hl, hw⟩
  | cons p ps ih =>
    intro a done hl hw
    have hlen := ring_add_length a p 0 done.length hl
    have hwin := ring_add_window a p 0 done hl hw
    have := ih (add_pids p a done.length) (done ++ [p]) hlen (by simpa using hwin)
    simpa [record_pids] using this

theorem fields_strsep (w : Line) :
    fields w = (strsep_scan w).1 :: rest_fields (strsep_scan w).2 := by
  induction w with
  | nil => rfl
  | cons c cs ih =>
    by_cases hc : c ∈ WHITESPACE
    · simp [fields, strsep_scan, hc, rest_fields]
    · simp [fields, strsep_scan, hc, ih]

theorem rest_fields_strsep_none (ws : Option Line) (w2 : Option Line)
    (h : strsep ws = (none, w2)) : rest_fields ws = [] ∧ w2 = none := by
  cases ws with
  | none => simp [strsep] at h; simp [rest_fields, h]
  | some w => simp [strsep] at h

theorem rest_fields_strsep_some (ws : Option Line) (a : Line) (w2 : Option Line)
    (h : strsep ws = (some a, w2)) : rest_fields ws = a :: rest_fields w2 := by
  cases ws with
  | none => simp [strsep] at h
  | some w =>
    simp [strsep] at h
    obtain ⟨h1, h2⟩ := h
    rw [← h1, ← h2]
    exact fields_strsep w

theorem set_unwritten (pre : List Slot) (n : Nat) (v : Slot) :
    (pre ++ List.replicate (n + 1) Slot.unwritten).set pre.length v
      = (pre ++ [v]) ++ List.replicate n Slot.unwritten := by
  induction pre with
  | nil => simp [List.replicate_succ]
  | cons p ps ih => simp [ih]

theorem tokenize_loop_spec : ∀ (fuel : Nat) (st : Tok) (pre : List Slot),
    st.token_count ≤ 12 → 13 ≤ fuel + st.token_count →
    pre.length = st.token_count →
    st.token = pre ++ List.replicate (12 - st.token_count) Slot.unwritten →
    (tokenize_loop fuel st).token
      = pre ++ ((rest_fields st.working_str).take (12 - st.token_count)).map slot_of
          ++ List.replicate (12 - st.token_count - (rest_fields st.working_str).length)
              Slot.unwritten ∧
    (tokenize_loop fuel st).token_count
      = st.token_count + min (12 - st.token_count) (rest_fields st.working_str).length ∧
    (tokenize_loop fuel st).max_exceed
      = (st.max_exceed ||
          decide (13 ≤ st.token_count + (rest_fields st.working_str).length
            ∧ st.token_count ≤ 11)) ∧
    (tokenize_loop fuel st).out
      = st.out ++ (if 13 ≤ st.token_count + (rest_fields st.working_str).length
            ∧ st.token_count ≤ 11 then [msg_exceeded] else []) := by
  intro fuel
  induction fuel with
  | zero => intro st pre h1 h2; omega
  | succ fuel ih =>
    intro st pre hle hfuel hpre htok
    obtain ⟨token, tc, ws, m, out⟩ := st
    simp only at hle hfuel hpre htok ⊢
    unfold tokenize_loop
    simp only [MAX_NUM_ARGUMENTS]
    split
    · rename_i w hs
      obtain ⟨hR, _⟩ := rest_fields_strsep_none _ _ hs
      simp [hR, htok]
      omega
    · rename_i a w hs
      have hR := rest_fields_strsep_some _ _ _ hs
      by_cases hlt : tc < 11 + 1
      · simp only [hlt, if_true]
        have hset : token.set tc (slot_of a)
            = (pre ++ [slot_of a]) ++ List.replicate (12 - (tc + 1)) Slot.unwritten := by
          rw [htok, ← hpre]
          have : 12 - pre.length = (12 - (pre.length + 1)) + 1 := by omega
          rw [this]
          exact set_unwritten pre _ _
        by_cases h11 : tc = 11
        · simp only [h11, if_true]
          subst h11
          split
          · rename_i b w2 hs2
            have hR2 := rest_fields_strsep_some _ _ _ hs2
            have := ih { token := token.set 11 (slot_of a), token_count := 11 + 1,
                          working_str := w2, max_exceed := true, out := out ++ [msg_exceeded] }
                        (pre ++ [slot_of a]) (by simp) (by simp; omega) (by simp [hpre]) (by simpa using hset)
            obtain ⟨t1, t2, t3, t4⟩ := this
            simp only [] at t1 t2 t3 t4
            rw [t1, t2, t3, t4, hR, hR2]
            have h13 : 13 ≤ 11 + ((rest_fields w2).length + 1 + 1) := by omega
            simp [h13]
          · rename_i w2 hs2
            obtain ⟨hR2, hw2⟩ := rest_fields_strsep_none _ _ hs2
            have := ih { token := token.set 11 (slot_of a), token_count := 11 + 1,
                          working_str := w2, max_exceed := m, out := out }
                        (pre ++ [slot_of a]) (by simp) (by simp; omega) (by simp [hpre]) (by simpa using hset)
            obtain ⟨t1, t2, t3, t4⟩ := this
            simp only [] at t1 t2 t3 t4
            rw [t1, t2, t3, t4, hR, hR2]
            have h13 : 13 ≤ 11 + ((rest_fields w2).length + 1 + 1) := by omega
            simp [h13]
        · simp only [h11, if_false]
          have h11b : tc < 11 := by omega
          have := ih { token := token.set tc (slot_of a), token_count := tc + 1,
                        working_str := w, max_exceed := m, out := out }
                      (pre ++ [slot_of a]) (by simp; omega) (by simp; omega) (by simp [hpre]) (by simpa using hset)
          obtain ⟨t1, t2, t3, t4⟩ := this
          simp only [] at t1 t2 t3 t4
          rw [t1, t2, t3, t4, hR]
          have e1 : 12 - tc = (12 - (tc + 1)) + 1 := by omega
          have hiff : (13 ≤ tc + 1 + (rest_fields w).length ∧ tc + 1 ≤ 11)
              ↔ (13 ≤ tc + (a :: rest_fields w).length ∧ tc ≤ 11) := by
            simp only [List.length_cons]; omega
          refine ⟨?_, ?_, ?_, ?_⟩
          · rw [e1, List.take_succ_cons]
            simp
          · simp; omega
          · simp only [hiff]
          · simp only [hiff]
      · simp only [hlt, if_false]
        have h12 : tc = 12 := by omega
        simp [htok, h12]
theorem tokenize_loop_fuel : ∀ (fuel fuel2 : Nat) (st : Tok),
    st.token_count ≤ 12 → 13 ≤ fuel + st.token_count → 13 ≤ fuel2 + st.token_count →
    tokenize_loop fuel st = tokenize_loop fuel2 st := by
  intro fuel
  induction fuel with
  | zero => intro fuel2 st h1 h2; omega
  | succ f ih =>
    intro fuel2 st h1 h2 h3
    cases fuel2 with
    | zero => omega
    | succ g =>
      rw [tokenize_loop, tokenize_loop]
      simp only [MAX_NUM_ARGUMENTS]
      rcases hs : strsep st.working_str with ⟨a, w⟩
      cases a with
      | none => rfl
      | some a =>
        simp only []
        by_cases hlt : st.token_count < 11 + 1
        · simp only [hlt, if_true]
          by_cases h11 : st.token_count = 11
          · simp only [h11, if_true]
            rcases hs2 : strsep w with ⟨b, w2⟩
            cases b with
            | none => exact ih _ _ (by simp [h11]) (by simp; omega) (by simp; omega)
            | some b => exact ih _ _ (by simp [h11]) (by simp; omega) (by simp; omega)
          · simp only [h11, if_false]
            exact ih _ _ (by simp; omega) (by simp; omega) (by simp; omega)
        · simp only [hlt, if_false]

theorem tokenize_spec (l : Line) (m : Bool) :
    (tokenize l m).token
      = ((fields l).take 12).map slot_of
          ++ List.replicate (12 - (fields l).length) Slot.unwritten ∧
    (tokenize l m).token_count = min 12 (fields l).length ∧
    (tokenize l m).max_exceed = (m || decide (13 ≤ (fields l).length)) ∧
    (tokenize l m).out = if 13 ≤ (fields l).length then [msg_exceeded] else [] := by
  have := tokenize_loop_spec (MAX_NUM_ARGUMENTS + 2)
    { token := List.replicate (MAX_NUM_ARGUMENTS + 1) Slot.unwritten, token_count := 0,
      working_str := some l, max_exceed := m, out := [] } [] (by simp) (by simp [MAX_NUM_ARGUMENTS])
    (by simp) (by simp [MAX_NUM_ARGUMENTS])
  simpa [tokenize, rest_fields] using this

theorem tokenize_any_fuel (l : Line) (m : Bool) (fuel : Nat) (h : MAX_NUM_ARGUMENTS + 2 ≤ fuel) :
    tokenize_loop fuel
      { token := List.replicate (MAX_NUM_ARGUMENTS + 1) Slot.unwritten, token_count := 0,
        working_str := some l, max_exceed := m, out := [] } = tokenize l m := by
  unfold tokenize
  apply tokenize_loop_fuel
  · simp
  · simp only [MAX_NUM_ARGUMENTS] at h; simp; omega
  · simp [MAX_NUM_ARGUMENTS]

theorem fields_ne_nil (l : Line) : fields l ≠ [] := by
  rw [fields_strsep]; simp

theorem fields_cons_nondelim (c : Char) (cs : Line) (hc : c ∉ WHITESPACE) :
    ∃ f fs, fields cs = f :: fs ∧ fields (c :: cs) = (c :: f) :: fs := by
  rcases h : fields cs with _ | ⟨f, fs⟩
  · exact absurd h (fields_ne_nil cs)
  · exact ⟨f, fs, rfl, by simp [fields, hc, h]⟩

theorem fields_head_nil_iff (l : Line) :
    (∃ fs, fields l = [] :: fs) ↔ (l = [] ∨ ∃ c cs, l = c :: cs ∧ c ∈ WHITESPACE) := by
  cases l with
  | nil => simp [fields]
  | cons c cs =>
    by_cases hc : c ∈ WHITESPACE
    · simp [fields, hc]
    · obtain ⟨f, fs, _, h2⟩ := fields_cons_nondelim c cs hc
      simp [h2, hc]

theorem words_cons_delim (c : Char) (cs : Line) (hc : c ∈ WHITESPACE) :
    words (c :: cs) = words cs := by
  rw [words.eq_def]; simp [hc]

theorem words_single (c : Char) (hc : c ∉ WHITESPACE) : words [c] = [[c]] := by
  rw [words.eq_def]; simp [hc]

theorem words_cons_then_delim (c d : Char) (ds : Line) (hc : c ∉ WHITESPACE)
    (hd : d ∈ WHITESPACE) : words (c :: d :: ds) = [c] :: words (d :: ds) := by
  rw [words.eq_def]; simp [hc, hd]

theorem words_cons_then_nondelim (c d : Char) (ds : Line) (w : Line) (ws : List Line)
    (hc : c ∉ WHITESPACE) (hd : d ∉ WHITESPACE) (hw : words (d :: ds) = w :: ws) :
    words (c :: d :: ds) = (c :: w) :: ws := by
  rw [words.eq_def]; simp [hc, hd, hw]

theorem words_eq_filter (l : Line) :
    words l = (fields l).filter (fun f => decide (f ≠ [])) := by
  induction l with
  | nil => simp [words, fields]
  | cons c cs ih =>
    by_cases hc : c ∈ WHITESPACE
    · rw [words_cons_delim c cs hc, ih]
      simp [fields, hc]
    · obtain ⟨f, fs, h1, h2⟩ := fields_cons_nondelim c cs hc
      rw [h2]
      cases cs with
      | nil =>
        simp [fields] at h1
        rw [words_single c hc, h1.1, h1.2]
        simp
      | cons d ds =>
        by_cases hd : d ∈ WHITESPACE
        · have h3 : f = [] := by
            simp [fields, hd] at h1
            exact h1.1
          rw [words_cons_then_delim c d ds hc hd, ih, h1, h3]
          simp
        · obtain ⟨f2, fs2, h4, h5⟩ := fields_cons_nondelim d ds hd
          have h3 : f ≠ [] := by
            rw [h5] at h1
            simp at h1
            rw [← h1.1]; simp
          have : words (d :: ds) = f :: List.filter (fun f => decide (f ≠ [])) fs := by
            rw [ih, h1]; simp [h3]
          rw [words_cons_then_nondelim c d ds _ _ hc hd this]
          simp

theorem fields_append_delim (l : Line) (c : Char) (hc : c ∈ WHITESPACE) :
    fields (l ++ [c]) = fields l ++ [[]] := by
  induction l with
  | nil => simp [fields, hc]
  | cons a as ih =>
    by_cases ha : a ∈ WHITESPACE
    · simp [fields, ha, ih]
    · obtain ⟨f, fs, h1, h2⟩ := fields_cons_nondelim a as ha
      have h3 : fields (a :: (as ++ [c])) = (a :: f) :: (fs ++ [[]]) := by
        simp [fields, ha, ih, h1]
      simp [h2, h3]

/-- A line that ends with a delimiter has at least one more field than it has words. -/
theorem words_lt_fields (l : Line) (c : Char) (hc : c ∈ WHITESPACE)
    (hlast : l.getLast? = some c) : (words l).length < (fields l).length := by
  obtain ⟨body, rfl⟩ : ∃ body, l = body ++ [c] := by
    rcases List.eq_nil_or_concat l with h | ⟨body, b, h⟩
    · subst h; simp at hlast
    · subst h
      simp at hlast
      exact ⟨body, by rw [hlast]; simp⟩
  rw [words_eq_filter, fields_append_delim body c hc]
  simp only [List.filter_append, List.length_append]
  have := List.length_filter_le (fun f => !decide (f = [])) (fields body)
  simp
  omega

theorem tokenize_out_of_clear (l : Line) (h : (tokenize l false).max_exceed = false) :
    (tokenize l false).out = [] := by
  obtain ⟨_, _, h3, h4⟩ := tokenize_spec l false
  rw [h3] at h
  rw [h4]
  simp at h
  simp [h]

theorem classify_recall1 (token : List Slot) (d : Char) (hd : d.isDigit = true)
    (h : read_token token 0 = Slot.str ['!', d]) :
    classify token false = Branch.recall1 (d.toNat - '0'.toNat) := by
  unfold classify
  rw [h]
  have e1 : "exit".toList = ['e', 'x', 'i', 't'] := by decide
  have e2 : "quit".toList = ['q', 'u', 'i', 't'] := by decide
  have e3 : "cd".toList = ['c', 'd'] := by decide
  have e4 : "history".toList = ['h', 'i', 's', 't', 'o', 'r', 'y'] := by decide
  simp [e1, e2, e3, e4, char_at, hd]

theorem digit_lt_ten (d : Char) (hd : d.isDigit = true) : d.toNat - '0'.toNat < 10 := by
  simp [Char.isDigit] at hd
  have h1 : d.val ≤ 57 := hd.2
  have h2 : d.toNat ≤ 57 := h1
  have : '0'.toNat = 48 := by decide
  omega

theorem read_history_in_range (history : List Line) (n : Nat) (h1 : 1 ≤ n) (h2 : n ≤ 15)
    (hlen : history.length = MAX_HISTORY) :
    read_history history ((n : Int) - 1) = some (history.getD (n - 1) []) := by
  unfold read_history
  have hlen2 : history.length = 15 := hlen
  have hc : (0 : Int) ≤ (n : Int) - 1 ∧ (n : Int) - 1 < (MAX_HISTORY : Nat) := by
    unfold MAX_HISTORY; omega
  have ht : ((n : Int) - 1).toNat = n - 1 := by omega
  rw [if_pos hc, ht]
  simp [List.getD_eq_getElem?_getD, List.getElem?_eq_getElem (by omega : n - 1 < history.length)]

theorem print_history_get (history : List Line) (count k : Nat)
    (hk : k < min count MAX_HISTORY) :
    (print_history history count).get? k = some (fmt_history (k + 1) (history.getD k [])) := by
  unfold print_history
  have hm : (if count > MAX_HISTORY then MAX_HISTORY else count) = min count MAX_HISTORY := by
    split <;> omega
  simp only [hm]
  simp [hk]

theorem slot_of_cons (c : Char) (f : Line) :
    slot_of (c :: f) = Slot.str ((c :: f).take MAX_COMMAND_SIZE) := by
  simp [slot_of, MAX_COMMAND_SIZE]

/-- The first slot after tokenizing a line that starts with a character that is not a
delimiter holds a string. -/
theorem tokenize_first_str (l : Line) (m : Bool) (c : Char) (hs : l.head? = some c)
    (hc : c ∉ WHITESPACE) :
    ∃ t0, read_token (tokenize l m).token 0 = Slot.str t0 := by
  cases l with
  | nil => simp at hs
  | cons a as =>
    simp at hs
    subst hs
    obtain ⟨f, fs, _, h2⟩ := fields_cons_nondelim a as hc
    obtain ⟨h3, _⟩ := tokenize_spec (a :: as) m
    refine ⟨(a :: f).take MAX_COMMAND_SIZE, ?_⟩
    rw [read_token, h3, h2]
    simp [slot_of_cons]

theorem classify_oversized (token : List Slot) (t0 : Line)
    (h : read_token token 0 = Slot.str t0) : classify token true = Branch.oversized := by
  unfold classify
  rw [h]
  simp

theorem shell3_reachable :
    run [env_line "ls\n" 101, env_line "pwd\n" 102, env_line "date\n" 103] startup0
      = Outcome.next shell3 := by decide

theorem fields_length (l : Line) :
    (fields l).length = l.countP (fun c => WHITESPACE.contains c) + 1 := by
  induction l with
  | nil => simp [fields]
  | cons c cs ih =>
    by_cases hc : c ∈ WHITESPACE
    · simp [fields, hc, ih]
    · obtain ⟨f, fs, h1, h2⟩ := fields_cons_nondelim c cs hc
      rw [h2, List.countP_cons_of_neg, ← ih, h1]
      · simp
      · simpa using hc

/-- The tokenizer prints the overflow message exactly when the line has at least 12
delimiter characters. -/
theorem tokenize_reports_iff (l : Line) (m : Bool) :
    ((tokenize l m).out = [msg_exceeded]
      ↔ 12 ≤ l.countP (fun c => WHITESPACE.contains c)) ∧
    ((tokenize l m).out = []
      ↔ l.countP (fun c => WHITESPACE.contains c) < 12) ∧
    (tokenize l m).max_exceed
      = (m || decide (12 ≤ l.countP (fun c => WHITESPACE.contains c))) := by
  obtain ⟨_, _, h3, h4⟩ := tokenize_spec l m
  have hl := fields_length l
  rw [h3, h4, hl]
  have hne : msg_exceeded ≠ [] := by decide
  by_cases h : 12 ≤ l.countP (fun c => WHITESPACE.contains c)
  · have h13 : 13 ≤ l.countP (fun c => WHITESPACE.contains c) + 1 := by omega
    simp [h, h13]
  · have h13 : ¬ 13 ≤ l.countP (fun c => WHITESPACE.contains c) + 1 := by omega
    simp [h, h13]

theorem fields_mem_length (l : Line) : ∀ f ∈ fields l, f.length ≤ l.length := by
  induction l with
  | nil => simp [fields]
  | cons c cs ih =>
    by_cases hc : c ∈ WHITESPACE
    · intro f hf
      simp [fields, hc] at hf
      rcases hf with rfl | hf
      · simp
      · have := ih f hf
        simp; omega
    · obtain ⟨g, gs, h1, h2⟩ := fields_cons_nondelim c cs hc
      intro f hf
      rw [h2] at hf
      rw [h1] at ih
      simp at hf
      rcases hf with rfl | hf
      · have := ih g (by simp)
        simp; omega
      · have := ih f (by simp [hf])
        simp; omega

theorem slot_of_short (f : Line) (hne : f ≠ []) (hlen : f.length ≤ MAX_COMMAND_SIZE) :
    slot_of f = Slot.str f := by
  have : f.take MAX_COMMAND_SIZE = f := List.take_of_length_le hlen
  simp [slot_of, this, hne]

theorem slot_of_nil : slot_of [] = Slot.null := by
  simp [slot_of]

theorem slot_of_ne_unwritten (f : Line) : slot_of f ≠ Slot.unwritten := by
  unfold slot_of
  split <;> simp

/-- The vector read by `execvp` when the slots written for non-empty short fields are
followed by a NULL slot. -/
theorem argv_of_strs (ws : List Line) (tail : List Slot) (hne : ∀ w ∈ ws, w ≠ [])
    (hlen : ∀ w ∈ ws, w.length ≤ MAX_COMMAND_SIZE) :
    argv_of (ws.map slot_of ++ Slot.null :: tail) = some ws := by
  induction ws with
  | nil => simp [argv_of]
  | cons w ws ih =>
    have h1 := slot_of_short w (hne w (by simp)) (hlen w (by simp))
    have h2 := ih (fun x hx => hne x (by simp [hx])) (fun x hx => hlen x (by simp [hx]))
    simp [h1, argv_of, h2]

theorem words_ne_nil (l : Line) : ∀ w ∈ words l, w ≠ [] := by
  intro w hw
  rw [words_eq_filter] at hw
  simpa using (List.mem_filter.mp hw).2

theorem words_mem_length (l : Line) : ∀ w ∈ words l, w.length ≤ l.length := by
  intro w hw
  rw [words_eq_filter] at hw
  exact fields_mem_length l w (List.mem_filter.mp hw).1

/-- A newline-terminated line whose first fields are its words is its words followed by
empty fields only, at least one. -/
theorem fields_of_single_spaced (l : Line) (hnl : l.getLast? = some '\n')
    (hsingle : (fields l).take (words l).length = words l) :
    ∃ rest, fields l = words l ++ [] :: rest ∧ ∀ f ∈ rest, f = [] := by
  have hlt := words_lt_fields l '\n' (by decide) hnl
  have hsplit : fields l = words l ++ (fields l).drop (words l).length := by
    conv_lhs => rw [← List.take_append_drop (words l).length (fields l)]
    rw [hsingle]
  have hfw : (words l).filter (fun f => decide (f ≠ [])) = words l := by
    rw [List.filter_eq_self]
    intro w hw
    simpa using words_ne_nil l w hw
  have hfilter : ((fields l).drop (words l).length).filter (fun f => decide (f ≠ [])) = [] := by
    have h := words_eq_filter l
    rw [hsplit, List.filter_append, hfw] at h
    have h2 : words l ++ [] = words l ++ List.filter (fun f => decide (f ≠ []))
        (List.drop (words l).length (words l ++ List.drop (words l).length (fields l))) := by
      simpa using h
    have h3 := List.append_cancel_left h2
    simp only [List.drop_left] at h3
    exact h3.symm
  have hall : ∀ f ∈ (fields l).drop (words l).length, f = [] := by
    intro f hf
    have := List.filter_eq_nil_iff.mp hfilter f hf
    simpa using this
  rcases hd : (fields l).drop (words l).length with _ | ⟨g, rest⟩
  · have : ((fields l).drop (words l).length).length = 0 := by rw [hd]; rfl
    simp at this
    omega
  · rw [hd] at hall hsplit
    have hg : g = [] := hall g (by simp)
    subst hg
    exact ⟨rest, hsplit, fun f hf => hall f (by simp [hf])⟩

theorem classify_empty (token : List Slot) (m : Bool)
    (h : read_token token 0 = Slot.null) : classify token m = Branch.empty := by
  unfold classify
  rw [h]

theorem classify_history (token : List Slot)
    (h : read_token token 0 = Slot.str "history".toList) :
    classify token false = Branch.history := by
  unfold classify
  rw [h]
  decide

/-- The first slot is NULL exactly for the empty line and the lines that start with a
delimiter. -/
theorem first_slot_null_iff (l : Line) (m : Bool) :
    read_token (tokenize l m).token 0 = Slot.null
      ↔ (l = [] ∨ ∃ c cs, l = c :: cs ∧ c ∈ WHITESPACE) := by
  obtain ⟨h1, _⟩ := tokenize_spec l m
  rw [← fields_head_nil_iff, read_token, h1]
  rcases hf : fields l with _ | ⟨f, fs⟩
  · exact absurd hf (fields_ne_nil l)
  · simp only [List.take_succ_cons, List.map_cons, List.cons_append, List.getD_cons_zero]
    constructor
    · intro h
      by_cases hne : f = []
      · subst hne; exact ⟨fs, rfl⟩
      · cases f with
        | nil => exact absurd rfl hne
        | cons a as => rw [slot_of_cons] at h; exact absurd h (by simp)
    · rintro ⟨fs2, h⟩
      simp at h
      rw [h.1, slot_of_nil]

theorem print_history_length (history : List Line) (count : Nat) :
    (print_history history count).length = min count MAX_HISTORY := by
  unfold print_history
  have hm : (if count > MAX_HISTORY then MAX_HISTORY else count) = min count MAX_HISTORY := by
    split <;> omega
  simp [hm]

theorem classify_flagged (token : List Slot) :
    classify token true = Branch.unwritten ∨ classify token true = Branch.empty
      ∨ classify token true = Branch.oversized := by
  unfold classify
  split <;> simp

theorem argv_of_null_exists (fs : List Line) (tail : List Slot) (h : [] ∈ fs) :
    ∃ argv, argv_of (fs.map slot_of ++ tail) = some argv ∧ argv.length < fs.length := by
  induction fs with
  | nil => simp at h
  | cons f fs ih =>
    cases f with
    | nil => exact ⟨[], by simp [slot_of_nil, argv_of], by simp⟩
    | cons a as =>
      have hmem : [] ∈ fs := by
        simp at h
        exact h
      obtain ⟨argv, h1, h2⟩ := ih hmem
      refine ⟨(a :: as).take MAX_COMMAND_SIZE :: argv, ?_, by simp; omega⟩
      simp [slot_of_cons, argv_of, h1]

/-- The tokens of a newline-terminated line that is not reported as oversized: every
field got a slot and the last slot written is NULL. -/
theorem tokens_of_newline_line (l : Line) (m : Bool) (hnl : l.getLast? = some '\n')
    (hover : (tokenize l m).max_exceed = false) :
    ∃ fs, fields l = fs ++ [[]] ∧ fs ≠ [] ∧ fs.length ≤ 11 ∧
      (tokenize l m).token_count = fs.length + 1 ∧
      (tokenize l m).token
        = (fs ++ [[]]).map slot_of ++ List.replicate (11 - fs.length) Slot.unwritten := by
  obtain ⟨body, rfl⟩ : ∃ body, l = body ++ ['\n'] := by
    rcases List.eq_nil_or_concat l with h | ⟨body, b, h⟩
    · subst h; simp at hnl
    · subst h
      simp at hnl
      exact ⟨body, by rw [hnl]; simp⟩
  obtain ⟨h1, h2, h3, _⟩ := tokenize_spec (body ++ ['\n']) m
  have hf := fields_append_delim body '\n' (by decide)
  rw [h3] at hover
  simp at hover
  rw [hf] at hover h1 h2
  simp at hover
  refine ⟨fields body, hf, fields_ne_nil body, by omega, ?_, ?_⟩
  · rw [h2]; simp; omega
  · rw [h1, List.take_of_length_le (by simp; omega)]
    congr 2
    simp

/-! ## Claims -/

/-- C1: after `k` lines are recorded one after another from an empty history (`count`
going from 0 to `k`), `print_history` writes exactly `min k 15` entries, numbered
`1 .. min k 15`, for the last `min k 15` recorded lines in insertion order; for
`k ≤ 15` these are all the lines, and with 16 lines the oldest one is gone and the other
15 are numbered `1 .. 15`. -/
theorem C1_print_history_window (history0 : List Line) (lines : List Line)
    (h0 : history0.length = MAX_HISTORY) :
    (record_lines history0 0 lines).2 = lines.length ∧
    print_history (record_lines history0 0 lines).1 (record_lines history0 0 lines).2
      = List.zipWith fmt_history (List.range' 1 (min lines.length 15))
          (lines.drop (lines.length - min lines.length 15)) ∧
    (print_history (record_lines history0 0 lines).1
      (record_lines history0 0 lines).2).length = min lines.length 15 ∧
    (lines.length ≤ 15 →
      print_history (record_lines history0 0 lines).1 (record_lines history0 0 lines).2
        = List.zipWith fmt_history (List.range' 1 lines.length) lines) ∧
    (∀ oldest rest, lines = oldest :: rest → rest.length = 15 →
      print_history (record_lines history0 0 lines).1 (record_lines history0 0 lines).2
        = List.zipWith fmt_history (List.range' 1 15) rest) := by
  obtain ⟨hc, hl, hw⟩ := record_lines_window lines history0 [] h0 (by simp)
  simp only [List.length_nil, List.nil_append] at hc hl hw
  have hmain : print_history (record_lines history0 0 lines).1
      (record_lines history0 0 lines).2
      = List.zipWith fmt_history (List.range' 1 (min lines.length 15))
          (lines.drop (lines.length - min lines.length 15)) := by
    rw [hc]
    unfold print_history
    have hm : (if lines.length > MAX_HISTORY then MAX_HISTORY else lines.length)
        = min lines.length 15 := by
      unfold MAX_HISTORY; split <;> omega
    simp only [hm]
    rw [print_window fmt_history _ [] _ (by omega), hw]
    congr 2
    omega
  refine ⟨hc, hmain, ?_, ?_, ?_⟩
  · rw [hmain]; simp; omega
  · intro hk
    rw [hmain]
    have h1 : min lines.length 15 = lines.length := by omega
    rw [h1]; simp
  · intro oldest rest hls hr
    rw [hmain]
    subst hls
    simp [hr]

/-- C1 at a concrete input: the listing after two recorded lines. -/
theorem C1_print_history_window_witness :
    (List.replicate 15 ([] : Line)).length = MAX_HISTORY ∧
    print_history (record_lines (List.replicate 15 []) 0 [['l', 's', '\n'], ['p', 's', '\n']]).1
      (record_lines (List.replicate 15 []) 0 [['l', 's', '\n'], ['p', 's', '\n']]).2
      = [['1', ':', ' ', 'l', 's', '\n'], ['2', ':', ' ', 'p', 's', '\n']] :=
  ⟨by decide,
    (C1_print_history_window (List.replicate 15 []) [['l', 's', '\n'], ['p', 's', '\n']]
      (by decide)).2.1⟩

/-- C2 on the code: in the state reached after exactly three commands (`count = 3`, the
listing shows entries 1 to 3), the line `!3` takes the single-digit branch, where
`rep_num >= count` holds: the pass prints "Command not in history.", no recall is
pending and nothing is recorded. The two-digit form `!03` does recall entry 3. -/
theorem C2_bang3_rejected :
    shell3.count = 3 ∧
    print_history shell3.history shell3.count
      = ["1: ls\n".toList, "2: pwd\n".toList, "3: date\n".toList] ∧
    pass (env_line "!3\n" 0) shell3
      = ([Event.print msg_prompt, Event.print msg_not_in_history],
          Outcome.next { shell3 with cmd_str := "!3\n".toList }) ∧
    (pass (env_line "!03\n" 0) shell3).2
      = Outcome.next { shell3 with cmd_str := "date\n".toList, repeat_ := true } := by
  decide

/-- C3: with the overflow flag clear, a line whose first token is `!` and one digit `d`
and which is not oversized is rejected when `d = 0` or `d ≥ count` (the message is
printed, no recall is pending, history, `count`, pid log and `pid_count` are as before)
and otherwise makes `history[d-1]` the pending line, which is the line that
`print_history` shows with number `d`, a filled slot of the 15; the stores and counters
are unchanged in that pass. -/
theorem C3_single_digit_recall (env : Env) (s : Shell) (d : Char)
    (hflag : s.max_exceed = false) (hd : d.isDigit = true)
    (htok : read_token (tokenize (current_line env s) s.max_exceed).token 0
      = Slot.str ['!', d])
    (hover : (tokenize (current_line env s) s.max_exceed).max_exceed = false)
    (hlen : s.history.length = MAX_HISTORY) :
    (d.toNat - '0'.toNat = 0 ∨ d.toNat - '0'.toNat ≥ s.count →
      pass env s
        = ((if s.repeat_ then [] else [Event.print msg_prompt])
              ++ [Event.print msg_not_in_history],
            Outcome.next { s with cmd_str := current_line env s, repeat_ := false })) ∧
    (¬ (d.toNat - '0'.toNat = 0 ∨ d.toNat - '0'.toNat ≥ s.count) →
      d.toNat - '0'.toNat - 1 < min s.count MAX_HISTORY ∧
      (print_history s.history s.count).get? (d.toNat - '0'.toNat - 1)
        = some (fmt_history (d.toNat - '0'.toNat)
            (s.history.getD (d.toNat - '0'.toNat - 1) [])) ∧
      pass env s
        = ((if s.repeat_ then [] else [Event.print msg_prompt]),
            Outcome.next { s with cmd_str := s.history.getD (d.toNat - '0'.toNat - 1) [],
                                  repeat_ := true })) := by
  rw [hflag] at htok hover
  have hout := tokenize_out_of_clear (current_line env s) hover
  have hcl := classify_recall1 _ d hd htok
  have h10 := digit_lt_ten d hd
  generalize d.toNat - '0'.toNat = n at hcl h10 ⊢
  constructor
  · intro hrej
    unfold pass dispatch
    simp only [hflag, hout, hover, hcl]
    rw [if_pos hrej]
    simp
  · intro hacc
    have hn : 1 ≤ n ∧ n < s.count := by omega
    have hk : n - 1 < min s.count MAX_HISTORY := by unfold MAX_HISTORY; omega
    refine ⟨hk, ?_, ?_⟩
    · rw [print_history_get _ _ _ hk]
      have : n - 1 + 1 = n := by omega
      rw [this]
    · unfold pass dispatch
      simp only [hflag, hout, hover, hcl]
      rw [if_neg hacc, read_history_in_range _ n hn.1 (by omega) hlen]
      simp

/-- C3 at a concrete input: `!2` after three commands recalls `pwd`; `!3` and `!0` are
rejected. -/
theorem C3_single_digit_recall_witness :
    shell3.max_exceed = false ∧
    read_token (tokenize (current_line (env_line "!2\n" 0) shell3) shell3.max_exceed).token 0
      = Slot.str ['!', '2'] ∧
    pass (env_line "!2\n" 0) shell3
      = ([Event.print msg_prompt],
          Outcome.next { shell3 with cmd_str := "pwd\n".toList, repeat_ := true }) :=
  ⟨rfl, by decide,
    ((C3_single_digit_recall (env_line "!2\n" 0) shell3 '2' rfl (by decide) (by decide)
      (by decide) (by decide)).2 (by decide)).2.2⟩

/-- C4 on the code: the line `!00` takes the two-digit branch with `rep_num = 0`; neither
`rep_num > MAX_HISTORY` nor `rep_num > count` holds, so the recall is accepted and
`history[-1]`, an element outside the array, is read; no message is printed. -/
theorem C4_bang00_accepted :
    classify (tokenize "!00\n".toList false).token false = Branch.recall2 0 ∧
    read_history shell3.history ((0 : Int) - 1) = none ∧
    pass (env_line "!00\n" 0) shell3 = ([Event.print msg_prompt], Outcome.undefined) ∧
    pass (env_line "!00\n" 0) startup0 = ([Event.print msg_prompt], Outcome.undefined) := by
  decide

/-- C5 on the code: after an oversized line that starts with a space (the empty branch
leaves `max_exceed` set), the line `exit`, for which the tokenizer prints nothing, is
taken by the oversized branch: it is recorded in history and the shell goes on. From
`startup0` itself the same line ends the shell with status 0. -/
theorem C5_exit_after_stale_flag :
    (pass (env_line " a b c d e f g h i j k l\n" 0) startup0).2
      = Outcome.next { startup0 with
          max_exceed := true, cmd_str := " a b c d e f g h i j k l\n".toList } ∧
    (tokenize "exit\n".toList true).out = [] ∧
    run [env_line " a b c d e f g h i j k l\n" 0, env_line "exit\n" 0] startup0
      = Outcome.next { startup0 with
          cmd_str := "exit\n".toList, count := 1,
          history := "exit\n".toList :: List.replicate 14 [] } ∧
    pass (env_line "exit\n" 0) startup0 = ([Event.print msg_prompt], Outcome.exit 0) := by
  decide

/-- C6 on the code: for the line `cd` followed by a space, `token_count` is 3, not 2, so
the pass calls `chdir(token[1])` with `token[1] == NULL` instead of
`chdir(getenv("HOME"))`; the same happens to `cd  /tmp` with two spaces. The line with
`cd` alone does go to `HOME`. -/
theorem C6_cd_trailing_space :
    (tokenize "cd \n".toList false).token_count = 3 ∧
    read_token (tokenize "cd \n".toList false).token 1 = Slot.null ∧
    pass { env_line "cd \n" 0 with chdir_ret := -1 } startup0
      = ([Event.print msg_prompt, Event.chdir none, Event.perror []],
          Outcome.next { startup0 with
            cmd_str := "cd \n".toList, count := 1,
            history := "cd \n".toList :: List.replicate 14 [] }) ∧
    (pass { env_line "cd\t\n" 0 with chdir_ret := -1 } startup0).1
      = [Event.print msg_prompt, Event.chdir none, Event.perror []] ∧
    (pass { env_line "cd  /tmp\n" 0 with chdir_ret := -1 } startup0).1
      = [Event.print msg_prompt, Event.chdir none, Event.perror []] ∧
    (pass (env_line "cd\n" 0) startup0).1
      = [Event.print msg_prompt, Event.chdir (some "/root".toList)] := by
  decide

/-- C7: a newline-terminated line that starts with a non-whitespace character and has
more than 11 whitespace-separated words makes one pass print the overflow message exactly
once, record the raw line as the newest history entry (`count` grows by one), run nothing
(no fork, no chdir, no exit, no recall; pid log and `pid_count` unchanged) and leave the
overflow flag cleared. -/
theorem C7_oversized_line (env : Env) (s : Shell) (c : Char)
    (hstart : (current_line env s).head? = some c) (hc : c ∉ WHITESPACE)
    (hnl : (current_line env s).getLast? = some '\n')
    (hwords : 11 < (words (current_line env s)).length)
    (hlen : s.history.length = MAX_HISTORY) :
    pass env s
      = ((if s.repeat_ then [] else [Event.print msg_prompt])
            ++ [Event.print msg_exceeded],
          Outcome.next
            { s with
              repeat_ := false, max_exceed := false, cmd_str := current_line env s,
              history := add_history s.history (current_line env s) s.count,
              count := s.count + 1 }) ∧
    (pass env s).1.count (Event.print msg_exceeded) = 1 ∧
    (add_history s.history (current_line env s) s.count).getD (min s.count 14) []
      = current_line env s := by
  have hf : 13 ≤ (fields (current_line env s)).length := by
    have := words_lt_fields (current_line env s) '\n' (by decide) hnl
    omega
  obtain ⟨_, _, h3, h4⟩ := tokenize_spec (current_line env s) s.max_exceed
  obtain ⟨t0, ht0⟩ := tokenize_first_str (current_line env s) s.max_exceed c hstart hc
  have hme : (tokenize (current_line env s) s.max_exceed).max_exceed = true := by
    rw [h3]; simp [hf]
  have hout : (tokenize (current_line env s) s.max_exceed).out = [msg_exceeded] := by
    rw [h4]; simp [hf]
  have hcl := classify_oversized _ t0 ht0
  have hpass : pass env s
      = ((if s.repeat_ then [] else [Event.print msg_prompt])
            ++ [Event.print msg_exceeded],
          Outcome.next
            { s with
              repeat_ := false, max_exceed := false, cmd_str := current_line env s,
              history := add_history s.history (current_line env s) s.count,
              count := s.count + 1 }) := by
    unfold pass dispatch
    simp only [hme, hout, hcl]
    simp [record]
  refine ⟨hpass, ?_, ?_⟩
  · rw [hpass]
    have hne : msg_prompt ≠ msg_exceeded := by decide
    cases s.repeat_ <;> simp [hne]
  · exact ring_add_newest s.history (current_line env s) [] s.count hlen

/-- C7 at a concrete input: a command with 11 arguments typed at startup. -/
theorem C7_oversized_line_witness :
    (words line_12_words).length = 12 ∧
    pass (env_line "a b c d e f g h i j k l\n" 0) startup0
      = ([Event.print msg_prompt, Event.print msg_exceeded],
          Outcome.next { startup0 with
            cmd_str := line_12_words, count := 1,
            history := line_12_words :: List.replicate 14 [] }) :=
  ⟨by decide,
    (C7_oversized_line (env_line "a b c d e f g h i j k l\n" 0) startup0 'a' (by decide)
      (by decide) (by decide) (by decide) (by decide)).1⟩

/-- C8 fails as stated: for the line `foobarbaz` whose program cannot be executed, the
child (`fork` returned 0, `execvp` returned -1) prints the not-found message and then
calls `exit(EXIT_SUCCESS)`: its exit status is 0, not a failure status. -/
theorem C8_child_status_counterexample :
    pass { env_line "foobarbaz\n" 0 with execvp_fails := true } startup0
      = ([Event.print msg_prompt, Event.fork,
          Event.execvp "foobarbaz".toList (some ["foobarbaz".toList]),
          Event.print "foobarbaz: Command not found.\n".toList, Event.fflush],
          Outcome.exit 0) ∧
    ¬ ∃ status, status ≠ 0 ∧
      (pass { env_line "foobarbaz\n" 0 with execvp_fails := true } startup0).2
        = Outcome.exit status := by
  constructor
  · decide
  · rintro ⟨status, hne, h⟩
    have h2 : (pass { env_line "foobarbaz\n" 0 with execvp_fails := true } startup0).2
        = Outcome.exit 0 := by decide
    rw [h2] at h
    injection h with h3
    exact hne h3.symm

/-- C8 as amended: for every external command line whose `fork` succeeds, the child whose
`execvp` fails prints the not-found message, flushes and exits with `EXIT_SUCCESS`
(status 0); the child whose `execvp` succeeds never reaches `exit` (the process image is
replaced); and the parent goes on to the next pass whether or not the child's `execvp`
failed. -/
theorem C8_child_exit_status (env : Env) (s : Shell) (file : Line)
    (hext : classify (tokenize (current_line env s) s.max_exceed).token
      (tokenize (current_line env s) s.max_exceed).max_exceed = Branch.external file) :
    (env.fork_ret = 0 → env.execvp_fails = true →
      pass env s
        = ((if s.repeat_ then [] else [Event.print msg_prompt])
            ++ (tokenize (current_line env s) s.max_exceed).out.map Event.print
            ++ [Event.fork,
                Event.execvp file (argv_of (tokenize (current_line env s) s.max_exceed).token),
                Event.print (msg_not_found (current_line env s).dropLast), Event.fflush],
          Outcome.exit EXIT_SUCCESS)) ∧
    (env.fork_ret = 0 → env.execvp_fails = false →
      ∀ status, (pass env s).2 ≠ Outcome.exit status) ∧
    (env.fork_ret ≠ -1 → env.fork_ret ≠ 0 → ∃ s', (pass env s).2 = Outcome.next s') := by
  refine ⟨?_, ?_, ?_⟩
  · intro h0 hf
    unfold pass dispatch
    simp only [hext]
    simp [h0, hf]
  · intro h0 hf status
    unfold pass dispatch
    simp only [hext]
    simp [h0, hf]
    split <;> simp
  · intro h1 h0
    unfold pass dispatch
    simp only [hext]
    simp [h1, h0]

/-- C8 (amended) at a concrete input: the child of `foobarbaz`. -/
theorem C8_child_exit_status_witness :
    classify (tokenize "foobarbaz\n".toList false).token false
      = Branch.external "foobarbaz".toList ∧
    (pass { env_line "foobarbaz\n" 0 with execvp_fails := true } shell3).2
      = Outcome.exit EXIT_SUCCESS :=
  ⟨by decide,
    congrArg Prod.snd
      ((C8_child_exit_status { env_line "foobarbaz\n" 0 with execvp_fails := true } shell3
        "foobarbaz".toList (by decide)).1 rfl rfl)⟩

/-- C9: after `k` process identifiers are recorded one after another from an empty process
log (`pid_count` going from 0 to `k`), `print_pids` writes exactly `min k 15` lines; line
`i` (from 1) is the decimal number `i`, a colon, a space, the decimal identifier and a
newline, for the last `min k 15` recorded identifiers in spawn order; after 2 spawns it
writes the two identifiers, numbered 1 and 2, in spawn order. -/
theorem C9_print_pids_window (pids0 : List Int) (spawned : List Int)
    (h0 : pids0.length = MAX_PIDS) :
    (record_pids pids0 0 spawned).2 = spawned.length ∧
    print_pids (record_pids pids0 0 spawned).1 (record_pids pids0 0 spawned).2
      = List.zipWith
          (fun n pid => (Nat.repr n).toList ++ [':', ' '] ++ (toString pid).toList ++ ['\n'])
          (List.range' 1 (min spawned.length 15))
          (spawned.drop (spawned.length - min spawned.length 15)) ∧
    (print_pids (record_pids pids0 0 spawned).1
      (record_pids pids0 0 spawned).2).length = min spawned.length 15 ∧
    (∀ p q, spawned = [p, q] →
      print_pids (record_pids pids0 0 spawned).1 (record_pids pids0 0 spawned).2
        = [['1', ':', ' '] ++ (toString p).toList ++ ['\n'],
           ['2', ':', ' '] ++ (toString q).toList ++ ['\n']]) := by
  obtain ⟨hc, hl, hw⟩ := record_pids_window spawned pids0 [] h0 (by simp)
  simp only [List.length_nil, List.nil_append] at hc hl hw
  have hmain : print_pids (record_pids pids0 0 spawned).1
      (record_pids pids0 0 spawned).2
      = List.zipWith fmt_pid (List.range' 1 (min spawned.length 15))
          (spawned.drop (spawned.length - min spawned.length 15)) := by
    rw [hc]
    unfold print_pids
    have hm : (if spawned.length > MAX_PIDS then MAX_PIDS else spawned.length)
        = min spawned.length 15 := by
      unfold MAX_PIDS; split <;> omega
    simp only [hm]
    rw [print_window fmt_pid _ 0 _ (by omega), hw]
    congr 2
    omega
  refine ⟨hc, hmain, ?_, ?_⟩
  · rw [hmain]; simp; omega
  · intro p q hs
    rw [hmain]
    subst hs
    rfl

/-- C9 at a concrete input: the text listed after the spawns 4242 and 4243, from a process
log whose slots hold arbitrary values at startup. -/
theorem C9_print_pids_window_witness :
    (List.replicate 15 (7 : Int)).length = MAX_PIDS ∧
    print_pids (record_pids (List.replicate 15 7) 0 [4242, 4243]).1
      (record_pids (List.replicate 15 7) 0 [4242, 4243]).2
      = ["1: 4242\n".toList, "2: 4243\n".toList] :=
  ⟨by decide,
    (C9_print_pids_window (List.replicate 15 7) [4242, 4243] (by decide)).2.2.2
      4242 4243 rfl⟩

/-- C10: a pass that goes on to a next state changes the process log or `pid_count` only
in the external-command branch on the parent side of a successful `fork`; there
`pid_count` grows by exactly one and the child's identifier is the newest log entry. In
every other branch (empty, oversized, `cd`, `history`, `showpids`, both recalls, accepted
or rejected) the process log and `pid_count` are unchanged. -/
theorem C10_pid_log_frame (env : Env) (s s' : Shell)
    (hnext : (pass env s).2 = Outcome.next s') (hlen : s.pids.length = MAX_PIDS) :
    (∀ file,
      classify (tokenize (current_line env s) s.max_exceed).token
        (tokenize (current_line env s) s.max_exceed).max_exceed = Branch.external file →
      env.fork_ret ≠ -1 ∧ env.fork_ret ≠ 0 ∧
      s'.pid_count = s.pid_count + 1 ∧
      s'.pids = add_pids env.fork_ret s.pids s.pid_count ∧
      s'.pids.getD (min s.pid_count 14) 0 = env.fork_ret) ∧
    ((∀ file,
      classify (tokenize (current_line env s) s.max_exceed).token
        (tokenize (current_line env s) s.max_exceed).max_exceed ≠ Branch.external file) →
      s'.pids = s.pids ∧ s'.pid_count = s.pid_count) := by
  unfold pass dispatch at hnext
  simp only at hnext
  constructor
  · intro file hcl
    rw [hcl] at hnext
    simp only at hnext
    by_cases h1 : env.fork_ret = -1
    · simp [h1] at hnext
    · by_cases h0 : env.fork_ret = 0
      · simp [h0] at hnext
        split at hnext
        · simp at hnext
        · split at hnext <;> simp at hnext
      · simp [h1, h0] at hnext
        subst hnext
        refine ⟨h1, h0, rfl, rfl, ?_⟩
        exact ring_add_newest s.pids env.fork_ret 0 s.pid_count hlen
  · intro hcl
    cases hb : classify (tokenize (current_line env s) s.max_exceed).token
        (tokenize (current_line env s) s.max_exceed).max_exceed with
    | external file => exact absurd hb (hcl file)
    | unwritten => rw [hb] at hnext; simp at hnext
    | empty => rw [hb] at hnext; simp at hnext; subst hnext; exact ⟨rfl, rfl⟩
    | oversized => rw [hb] at hnext; simp at hnext; subst hnext; exact ⟨rfl, rfl⟩
    | quit => rw [hb] at hnext; simp at hnext
    | cd =>
      rw [hb] at hnext
      simp only at hnext
      split at hnext
      · simp at hnext; subst hnext; exact ⟨rfl, rfl⟩
      · split at hnext
        · simp at hnext
        · simp at hnext; subst hnext; exact ⟨rfl, rfl⟩
        · simp at hnext; subst hnext; exact ⟨rfl, rfl⟩
    | history => rw [hb] at hnext; simp at hnext; subst hnext; exact ⟨rfl, rfl⟩
    | recall1 n =>
      rw [hb] at hnext
      simp only at hnext
      split at hnext
      · simp at hnext; subst hnext; exact ⟨rfl, rfl⟩
      · split at hnext
        · simp at hnext
        · simp at hnext; subst hnext; exact ⟨rfl, rfl⟩
    | recall2 n =>
      rw [hb] at hnext
      simp only at hnext
      split at hnext
      · simp at hnext; subst hnext; exact ⟨rfl, rfl⟩
      · split at hnext
        · simp at hnext
        · simp at hnext; subst hnext; exact ⟨rfl, rfl⟩
    | showpids => rw [hb] at hnext; simp at hnext; subst hnext; exact ⟨rfl, rfl⟩

/-- C10 at a concrete input: `ls` run as child 4242 from the state after three
commands. -/
theorem C10_pid_log_frame_witness :
    (pass (env_line "ls\n" 4242) shell3).2
      = Outcome.next { shell3 with
          cmd_str := "ls\n".toList, count := 4, pid_count := 4,
          history := ["ls\n".toList, "pwd\n".toList, "date\n".toList, "ls\n".toList]
            ++ List.replicate 11 [],
          pids := [101, 102, 103, 4242] ++ List.replicate 11 0 } ∧
    ([101, 102, 103, 4242] ++ List.replicate 11 (0 : Int)).getD (min shell3.pid_count 14) 0
      = 4242 :=
  ⟨by decide,
    ((C10_pid_log_frame (env_line "ls\n" 4242) shell3
      { shell3 with
          cmd_str := "ls\n".toList, count := 4, pid_count := 4,
          history := ["ls\n".toList, "pwd\n".toList, "date\n".toList, "ls\n".toList]
            ++ List.replicate 11 [],
          pids := [101, 102, 103, 4242] ++ List.replicate 11 0 }
      (by decide) (by decide)).1 "ls".toList (by decide)).2.2.2.2⟩

/-- C11 fails as stated: in `ls  -l` (two spaces) the second word is preceded by two
delimiters; slot 1 is NULL, the word `-l` is in slot 2, and the vector `execvp` reads is
`ls` alone. A leading space leaves slot 0 NULL. -/
theorem C11_double_space_counterexample :
    words "ls  -l\n".toList = ["ls".toList, "-l".toList] ∧
    read_token (tokenize "ls  -l\n".toList false).token 1 = Slot.null ∧
    read_token (tokenize "ls  -l\n".toList false).token 2 = Slot.str "-l".toList ∧
    argv_of (tokenize "ls  -l\n".toList false).token = some ["ls".toList] ∧
    words " ls\n".toList = ["ls".toList] ∧
    read_token (tokenize " ls\n".toList false).token 0 = Slot.null := by
  decide

/-- C11 as amended: the tokenizer cuts the line at every single delimiter character.
For every newline-terminated line that `fgets` can store, with `n ≤ 11` words, in which
no delimiter precedes the first word and exactly one separates consecutive words (its
first `n` fields are its `n` words), slot `i` holds the `i`-th word for every `i < n`
(slot 0 is the command name when `n ≥ 1`), every slot written after the last word is
NULL, there is at least one, and the vector handed to `execvp` (the tokens up to the
first NULL) is exactly the list of the `n` words. -/
theorem C11_single_delimiter_tokens (l : Line) (m : Bool)
    (hnl : l.getLast? = some '\n') (hn : (words l).length ≤ 11)
    (hsize : l.length < MAX_COMMAND_SIZE)
    (hsingle : (fields l).take (words l).length = words l) :
    (∀ i, i < (words l).length →
      read_token (tokenize l m).token i = Slot.str ((words l).getD i [])) ∧
    (∀ i, (words l).length ≤ i → i < (tokenize l m).token_count →
      read_token (tokenize l m).token i = Slot.null) ∧
    (words l).length < (tokenize l m).token_count ∧
    argv_of (tokenize l m).token = some (words l) := by
  obtain ⟨rest, hf, hrest⟩ := fields_of_single_spaced l hnl hsingle
  obtain ⟨h1, h2, _, _⟩ := tokenize_spec l m
  have hne := words_ne_nil l
  have hlen : ∀ w ∈ words l, w.length ≤ MAX_COMMAND_SIZE := fun w hw =>
    Nat.le_trans (words_mem_length l w hw) (Nat.le_of_lt hsize)
  have htake : (fields l).take 12 = words l ++ [] :: rest.take (11 - (words l).length) := by
    rw [hf, List.take_append_eq_append_take, List.take_of_length_le (by omega)]
    have : 12 - (words l).length = (11 - (words l).length) + 1 := by omega
    rw [this, List.take_succ_cons]
  have htok : (tokenize l m).token
      = (words l).map slot_of ++ Slot.null ::
          ((rest.take (11 - (words l).length)).map slot_of
            ++ List.replicate (12 - (fields l).length) Slot.unwritten) := by
    rw [h1, htake]
    simp [slot_of_nil]
  have hcount : (tokenize l m).token_count
      = (words l).length + 1 + min (11 - (words l).length) rest.length := by
    rw [h2, hf]
    simp
    omega
  refine ⟨?_, ?_, ?_, ?_⟩
  · intro i hi
    rw [read_token, htok, List.getD_eq_getElem?_getD,
      List.getElem?_append_left (by simpa using hi)]
    simp only [List.getElem?_map, List.getElem?_eq_getElem hi, Option.map_some',
      Option.getD_some, List.getD_eq_getElem?_getD]
    exact slot_of_short _ (hne _ (List.getElem_mem _)) (hlen _ (List.getElem_mem _))
  · intro i hi1 hi2
    rw [hcount] at hi2
    rw [read_token, htok, List.getD_eq_getElem?_getD,
      List.getElem?_append_right (by simpa using hi1)]
    simp only [List.length_map]
    rcases Nat.eq_zero_or_pos (i - (words l).length) with h0 | hpos
    · rw [h0]; simp
    · obtain ⟨k, hk⟩ : ∃ k, i - (words l).length = k + 1 := ⟨i - (words l).length - 1, by omega⟩
      rw [hk, List.getElem?_cons_succ]
      have hk2 : k < (rest.take (11 - (words l).length)).length := by
        simp; omega
      rw [List.getElem?_append_left (by simpa using hk2)]
      simp only [List.getElem?_map, List.getElem?_eq_getElem hk2, Option.map_some',
        Option.getD_some]
      have : (rest.take (11 - (words l).length))[k] = [] :=
        hrest _ (List.mem_of_mem_take (List.getElem_mem _))
      rw [this, slot_of_nil]
  · rw [hcount]; omega
  · rw [htok]
    exact argv_of_strs (words l) _ hne hlen

/-- C11 (amended) at a concrete input: `ls -l` with single delimiters. -/
theorem C11_single_delimiter_tokens_witness :
    (fields "ls -l\n".toList).take (words "ls -l\n".toList).length = words "ls -l\n".toList ∧
    argv_of (tokenize "ls -l\n".toList false).token = some ["ls".toList, "-l".toList] :=
  ⟨by decide,
    (C11_single_delimiter_tokens "ls -l\n".toList false (by decide) (by decide) (by decide)
      (by decide)).2.2.2⟩

/-- C13 on the code: after an oversized line that starts with a space, the line `exit` is
recorded in history by the oversized branch (the flag was left set). Once `ls` has run,
`!1` is accepted and recalls `exit`; that pass appends nothing, and the following pass
ends the shell with `exit(0)`: the recalled line is not recorded as a new entry. -/
theorem C13_recalled_exit_not_recorded :
    run [env_line " a b c d e f g h i j k l\n" 0, env_line "exit\n" 0, env_line "ls\n" 101,
        env_line "!1\n" 0] startup0 = Outcome.next shell_recall_exit ∧
    Reachable shell_recall_exit ∧
    (∀ env, pass env shell_recall_exit = ([], Outcome.exit 0)) := by
  refine ⟨by decide, ?_, fun env => rfl⟩
  exact ⟨[], List.replicate MAX_HISTORY [], List.replicate MAX_PIDS 0,
    [env_line " a b c d e f g h i j k l\n" 0, env_line "exit\n" 0, env_line "ls\n" 101,
      env_line "!1\n" 0], by decide, by decide, by decide⟩

/-- C14 fails as stated: an all-whitespace line of 12 spaces and a newline has its first
slot NULL, yet the tokenizer prints the overflow message for it and the pass ends with
the overflow flag set. -/
theorem C14_blank_line_counterexample :
    read_token (tokenize "            \n".toList false).token 0 = Slot.null ∧
    pass (env_line "            \n" 0) startup0
      = ([Event.print msg_prompt, Event.print msg_exceeded],
          Outcome.next { startup0 with
            cmd_str := "            \n".toList, max_exceed := true }) := by
  decide

/-- C14 as amended: for every shell state and every line whose first token slot is NULL,
one pass records nothing and goes on with the history log, `count`, the pid log and
`pid_count` as they were, `cmd_str` holding the line and no recall pending; it prints the
prompt (unless a recall was pending) and, only when the line has 12 or more delimiter
characters, the overflow message once. When the overflow flag is clear at the start of
the pass and the line has fewer than 12 delimiter characters, the flag is still clear
afterwards and the pass changes nothing else. -/
theorem C14_empty_line_noop (env : Env) (s : Shell)
    (hempty : read_token (tokenize (current_line env s) s.max_exceed).token 0 = Slot.null) :
    (pass env s).1
      = (if s.repeat_ then [] else [Event.print msg_prompt])
          ++ (if 12 ≤ (current_line env s).countP (fun c => WHITESPACE.contains c)
              then [Event.print msg_exceeded] else []) ∧
    (∃ s', (pass env s).2 = Outcome.next s' ∧
      s'.history = s.history ∧ s'.count = s.count ∧ s'.pids = s.pids ∧
      s'.pid_count = s.pid_count ∧ s'.repeat_ = false ∧
      s'.cmd_str = current_line env s ∧
      (s.max_exceed = false →
        (current_line env s).countP (fun c => WHITESPACE.contains c) < 12 →
        s'.max_exceed = false)) ∧
    (s.max_exceed = false →
      (current_line env s).countP (fun c => WHITESPACE.contains c) < 12 →
      pass env s
        = ((if s.repeat_ then [] else [Event.print msg_prompt]),
            Outcome.next
              { s with
                cmd_str := current_line env s, repeat_ := false, max_exceed := false })) := by
  obtain ⟨h1, h2, h3⟩ := tokenize_reports_iff (current_line env s) s.max_exceed
  have hcl := classify_empty _ (tokenize (current_line env s) s.max_exceed).max_exceed hempty
  have hpass : pass env s
      = ((if s.repeat_ then [] else [Event.print msg_prompt])
            ++ (tokenize (current_line env s) s.max_exceed).out.map Event.print,
          Outcome.next { s with
            cmd_str := current_line env s, repeat_ := false,
            max_exceed := (tokenize (current_line env s) s.max_exceed).max_exceed }) := by
    unfold pass dispatch
    simp only [hcl]
    simp
  refine ⟨?_, ?_, ?_⟩
  · rw [hpass]
    by_cases h : 12 ≤ (current_line env s).countP (fun c => WHITESPACE.contains c)
    · simp only [h1.2 h, if_pos h]; rfl
    · simp only [h2.2 (by omega), if_neg h]; rfl
  · rw [hpass]
    refine ⟨_, rfl, rfl, rfl, rfl, rfl, rfl, rfl, ?_⟩
    intro hflag hfew
    have hnot : ¬ 12 ≤ (current_line env s).countP (fun c => WHITESPACE.contains c) := by
      omega
    show (tokenize (current_line env s) s.max_exceed).max_exceed = false
    rw [h3, hflag, decide_eq_false hnot, Bool.or_false]
  · intro hflag hfew
    have hnot : ¬ 12 ≤ (current_line env s).countP (fun c => WHITESPACE.contains c) := by
      omega
    rw [hpass, h2.2 hfew, h3, hflag, decide_eq_false hnot, Bool.or_false]
    simp

/-- C14 (amended) at a concrete input: a line of three spaces after three commands, the
overflow flag being clear. -/
theorem C14_empty_line_noop_witness :
    shell3.max_exceed = false ∧
    read_token (tokenize (current_line (env_line "   \n" 0) shell3) shell3.max_exceed).token 0
      = Slot.null ∧
    pass (env_line "   \n" 0) shell3
      = ([Event.print msg_prompt], Outcome.next { shell3 with cmd_str := "   \n".toList }) :=
  ⟨rfl, by decide,
    (C14_empty_line_noop (env_line "   \n" 0) shell3 (by decide)).2.2 rfl (by decide)⟩

/-- C15: with the overflow flag clear, a line whose first token is `history` and which is
not oversized is recorded before the listing is printed: the listing printed in that pass
has `min (count + 1) 15` entries and its last entry is the line itself (with the number
`min (count + 1) 15`). -/
theorem C15_history_lists_itself (env : Env) (s : Shell)
    (hflag : s.max_exceed = false)
    (htok : read_token (tokenize (current_line env s) s.max_exceed).token 0
      = Slot.str "history".toList)
    (hover : (tokenize (current_line env s) s.max_exceed).max_exceed = false)
    (hlen : s.history.length = MAX_HISTORY) :
    pass env s
      = ((if s.repeat_ then [] else [Event.print msg_prompt])
            ++ (print_history (add_history s.history (current_line env s) s.count)
                  (s.count + 1)).map Event.print,
          Outcome.next
            { s with
              cmd_str := current_line env s, repeat_ := false,
              history := add_history s.history (current_line env s) s.count,
              count := s.count + 1 }) ∧
    (print_history (add_history s.history (current_line env s) s.count)
      (s.count + 1)).length = min (s.count + 1) 15 ∧
    (print_history (add_history s.history (current_line env s) s.count)
      (s.count + 1)).getLast?
      = some (fmt_history (min (s.count + 1) 15) (current_line env s)) := by
  rw [hflag] at htok hover
  have hout := tokenize_out_of_clear (current_line env s) hover
  have hcl := classify_history _ htok
  refine ⟨?_, ?_, ?_⟩
  · unfold pass dispatch
    simp only [hflag, hout, hover, hcl]
    simp [record]
  · rw [print_history_length]; rfl
  · rw [List.getLast?_eq_getElem?, print_history_length, ← List.get?_eq_getElem?,
      print_history_get _ _ _ (by unfold MAX_HISTORY; omega)]
    have e1 : min (s.count + 1) MAX_HISTORY - 1 + 1 = min (s.count + 1) 15 := by
      unfold MAX_HISTORY; omega
    have e2 : min (s.count + 1) MAX_HISTORY - 1 = min s.count 14 := by
      unfold MAX_HISTORY; omega
    rw [e1, e2]
    have := ring_add_newest s.history (current_line env s) [] s.count hlen
    have e3 : add_history s.history (current_line env s) s.count
        = ring_add s.history (current_line env s) s.count [] := rfl
    rw [e3, this]

/-- C15 at a concrete input: `history` typed after three commands lists four entries, the
last one being `history` itself. -/
theorem C15_history_lists_itself_witness :
    shell3.count = 3 ∧
    (pass (env_line "history\n" 0) shell3).1
      = [Event.print msg_prompt, Event.print "1: ls\n".toList, Event.print "2: pwd\n".toList,
          Event.print "3: date\n".toList, Event.print "4: history\n".toList] :=
  ⟨rfl,
    congrArg Prod.fst
      (C15_history_lists_itself (env_line "history\n" 0) shell3 rfl (by decide) (by decide)
        (by decide)).1⟩

/-- C16 on the code: the child truncates `temp` at `strlen(temp) - 1` whatever the last
character is. For the line `foo  bar` with no trailing newline the message is
`foo  ba: Command not found.`, and for `foobarbaz` with no trailing newline it is
`foobarba: Command not found.`: the last character of the line is dropped. With the
trailing newline the message is the line without it. -/
theorem C16_last_character_dropped :
    pass { env_line "foo  bar" 0 with execvp_fails := true } startup0
      = ([Event.print msg_prompt, Event.fork,
          Event.execvp "foo".toList (some ["foo".toList]),
          Event.print "foo  ba: Command not found.\n".toList, Event.fflush],
          Outcome.exit 0) ∧
    (pass { env_line "foobarbaz" 0 with execvp_fails := true } startup0).1
      = [Event.print msg_prompt, Event.fork, Event.execvp "foobarbaz".toList none,
          Event.print "foobarba: Command not found.\n".toList, Event.fflush] ∧
    (pass { env_line "foobarbaz\n" 0 with execvp_fails := true } startup0).1
      = [Event.print msg_prompt, Event.fork,
          Event.execvp "foobarbaz".toList (some ["foobarbaz".toList]),
          Event.print "foobarbaz: Command not found.\n".toList, Event.fflush] := by
  decide

/-- C17 on the code: after an oversized line that starts with a space, the line `!1` is
recorded in history by the oversized branch (the flag was left set). Once `ls` has run,
`!1` is accepted and recalls entry 1, the line `!1` itself; the following pass dispatches
it as an accepted recall again and ends in the same state with the recall still pending,
so any number of further passes re-tokenize `!1` without reading input. -/
theorem C17_recall_cycle :
    run [env_line " a b c d e f g h i j k l\n" 0, env_line "!1\n" 0, env_line "ls\n" 101,
        env_line "!1\n" 0] startup0 = Outcome.next shell_recall_loop ∧
    Reachable shell_recall_loop ∧
    shell_recall_loop.repeat_ = true ∧
    (∀ env, pass env shell_recall_loop = ([], Outcome.next shell_recall_loop)) ∧
    (∀ envs, run envs shell_recall_loop = Outcome.next shell_recall_loop) := by
  have hpass : ∀ env, pass env shell_recall_loop = ([], Outcome.next shell_recall_loop) :=
    fun env => rfl
  refine ⟨by decide, ?_, rfl, hpass, ?_⟩
  · exact ⟨[], List.replicate MAX_HISTORY [], List.replicate MAX_PIDS 0,
      [env_line " a b c d e f g h i j k l\n" 0, env_line "!1\n" 0, env_line "ls\n" 101,
        env_line "!1\n" 0], by decide, by decide, by decide⟩
  · intro envs
    induction envs with
    | nil => rfl
    | cons env envs ih => simp only [run, hpass env, ih]

/-- C18: for every newline-terminated line dispatched to the `cd` branch or to the
external-command branch, the tokenizer wrote slots `0 .. token_count - 1` with
`2 ≤ token_count ≤ 12`, none of them is left indeterminate, the last one written is
NULL, so the vector `execvp` reads ends at a NULL inside the written slots, `token[1]`
read by `cd` was written, and the pass reads no unwritten slot. -/
theorem C18_token_reads_written (env : Env) (s : Shell)
    (hnl : (current_line env s).getLast? = some '\n')
    (hbr : classify (tokenize (current_line env s) s.max_exceed).token
          (tokenize (current_line env s) s.max_exceed).max_exceed = Branch.cd
      ∨ ∃ file, classify (tokenize (current_line env s) s.max_exceed).token
          (tokenize (current_line env s) s.max_exceed).max_exceed = Branch.external file) :
    2 ≤ (tokenize (current_line env s) s.max_exceed).token_count ∧
    (tokenize (current_line env s) s.max_exceed).token_count ≤ MAX_NUM_ARGUMENTS + 1 ∧
    read_token (tokenize (current_line env s) s.max_exceed).token
      ((tokenize (current_line env s) s.max_exceed).token_count - 1) = Slot.null ∧
    (∀ i, i < (tokenize (current_line env s) s.max_exceed).token_count →
      read_token (tokenize (current_line env s) s.max_exceed).token i ≠ Slot.unwritten) ∧
    (∃ argv, argv_of (tokenize (current_line env s) s.max_exceed).token = some argv ∧
      argv.length < (tokenize (current_line env s) s.max_exceed).token_count) ∧
    (pass env s).2 ≠ Outcome.undefined := by
  have hover : (tokenize (current_line env s) s.max_exceed).max_exceed = false := by
    cases hm : (tokenize (current_line env s) s.max_exceed).max_exceed with
    | false => rfl
    | true =>
      rw [hm] at hbr
      rcases classify_flagged (tokenize (current_line env s) s.max_exceed).token
        with h | h | h <;> rw [h] at hbr <;> simp at hbr
  obtain ⟨fs, hf, hne, hlen, hcount, htok⟩ :=
    tokens_of_newline_line (current_line env s) s.max_exceed hnl hover
  have hpos : 1 ≤ fs.length := by
    cases fs with
    | nil => exact absurd rfl hne
    | cons a as => simp
  have hwritten : ∀ i, i < (tokenize (current_line env s) s.max_exceed).token_count →
      read_token (tokenize (current_line env s) s.max_exceed).token i ≠ Slot.unwritten := by
    intro i hi
    rw [hcount] at hi
    have hi2 : i < (fs ++ [[]]).length := by simpa using hi
    rw [read_token, htok, List.getD_eq_getElem?_getD,
      List.getElem?_append_left (by simpa using hi2)]
    simp only [List.getElem?_map, List.getElem?_eq_getElem hi2, Option.map_some',
      Option.getD_some]
    exact slot_of_ne_unwritten _
  have hargv : ∃ argv, argv_of (tokenize (current_line env s) s.max_exceed).token = some argv ∧
      argv.length < (tokenize (current_line env s) s.max_exceed).token_count := by
    rw [htok, hcount]
    obtain ⟨argv, h1, h2⟩ := argv_of_null_exists (fs ++ [[]])
      (List.replicate (11 - fs.length) Slot.unwritten) (by simp)
    exact ⟨argv, h1, by simpa using h2⟩
  refine ⟨by omega, by unfold MAX_NUM_ARGUMENTS; omega, ?_, hwritten, hargv, ?_⟩
  · rw [hcount, read_token, htok, List.getD_eq_getElem?_getD,
      List.getElem?_append_left (by simp)]
    simp [slot_of_nil]
  · unfold pass dispatch
    simp only
    rcases hbr with h | ⟨file, h⟩
    · rw [h]
      simp only
      split
      · simp
      · have h1 := hwritten 1 (by omega)
        split
        · rename_i hu; exact absurd hu h1
        · simp
        · simp
    · rw [h]
      simp only
      obtain ⟨argv, h1, _⟩ := hargv
      rw [h1]
      split
      · simp
      · split
        · split <;> simp
        · simp

/-- C18 at a concrete input: the external command `ls -l` writes three slots, the last
one NULL. -/
theorem C18_token_reads_written_witness :
    classify (tokenize (current_line (env_line "ls -l\n" 104) shell3) shell3.max_exceed).token
        (tokenize (current_line (env_line "ls -l\n" 104) shell3) shell3.max_exceed).max_exceed
      = Branch.external "ls".toList ∧
    (tokenize "ls -l\n".toList false).token_count = 3 ∧
    read_token (tokenize "ls -l\n".toList false).token (3 - 1) = Slot.null :=
  ⟨by decide, by decide,
    (C18_token_reads_written (env_line "ls -l\n" 104) shell3 (by decide)
      (Or.inr ⟨"ls".toList, by decide⟩)).2.2.1⟩

end Msh
